import Mathlib

/-!
Verification of the `printer` keyword-argument printing library (print.h).

The embedding models one call to `print` / `raw_print` / `print_no_end` as a
computation over the ordered argument list.  Values written to the channel are
abstracted as `Val`; the observable behaviour of a call is the resolved channel
id together with the ordered trace of channel events (writes and flush-strategy
invocations).  The compile-time `static_assert` failure on duplicate keyword
bindings is modelled by `combine_options` returning `none`.
-/

namespace printer

/-- Abstract values that can be handed to the channel's output operation.
`ord n` is an ordinary printable value (indexed by `n`), `fileTagV` is the
bare `file_t` tag viewed as a printable value, `nothing` is `print_nothing_t`. -/
inductive Val where
  | ord : Nat → Val
  | fileTagV : Val
  | nothing : Val
deriving DecidableEq

/-- One positional argument of a call: ordinary data, `print_nothing`,
a bare tag (`sep_t`, `end_t`, `file_t`, `flush_t`), or a keyword binding
(`sep_t::value_t`, `end_t::value_t`, `file_t::value_t`, `flush_t::value_t`).
Channel references are abstracted as `Nat` ids (0 is `std::cout`). -/
inductive Arg where
  | data : Nat → Arg
  | nothing : Arg
  | sepTag : Arg
  | endTag : Arg
  | fileTag : Arg
  | flushTag : Arg
  | sepVal : Val → Arg
  | endVal : Val → Arg
  | fileVal : Nat → Arg
  | flushVal : Bool → Arg
deriving DecidableEq

/-- Observable channel events: a write of a value through `operator<<`, or one
flush performed by the flush strategy. -/
inductive Event where
  | write : Val → Event
  | flushEv : Event
deriving DecidableEq

/-- The trait `printer::detail::is_print_opt_value` (including the
`is_fwd_print_opt_value` decay): true exactly for the four `value_t` bindings
and the bare `sep_t`, `end_t`, `flush_t` tags.  Note the bare `file_t` tag and
`print_nothing_t` are not listed in the source's specializations. -/
def is_print_opt_value : Arg → Bool
  | .sepVal _ => true
  | .endVal _ => true
  | .fileVal _ => true
  | .flushVal _ => true
  | .sepTag => true
  | .endTag => true
  | .flushTag => true
  | .data _ => false
  | .nothing => false
  | .fileTag => false

/-- How the overloads of `print_impl` classify one argument: an option
(first overload, `is_fwd_print_opt_value`), `print_nothing_t` (second
overload), or printable data carrying a value (remaining overloads). -/
inductive Kind where
  | opt : Kind
  | nul : Kind
  | dataK : Val → Kind
deriving DecidableEq

/-- The classification used by `print_impl`'s `enable_if` dispatch.
A bare `file_t` tag is not an option and not `print_nothing_t`, so it falls
into the printable-data overload and is written to the channel. -/
def kindOf : Arg → Kind
  | .data n => .dataK (.ord n)
  | .fileTag => .dataK .fileTagV
  | .nothing => .nul
  | .sepTag => .opt
  | .endTag => .opt
  | .flushTag => .opt
  | .sepVal _ => .opt
  | .endVal _ => .opt
  | .fileVal _ => .opt
  | .flushVal _ => .opt

/-- Source `printer::detail::print_options`: the resolved (sep, end, file, flush)
record plus the compile-time `Manipulated` bitset recording which slots were
explicitly bound.  `end` is a Lean keyword, so the field is named `endv`. -/
structure print_options where
  sep : Val
  endv : Val
  file : Nat
  flush : Bool
  set_sep : Bool
  set_endv : Bool
  set_file : Bool
  set_flush : Bool
deriving DecidableEq

/-- One step of `print_options::operator+`.  A binding for an already-set slot
is the `static_assert` compile failure, modelled as `none`.  A bare `sep`/`end`
tag binds the slot to `print_nothing`; a bare `flush` tag binds the flush flag
to `true`.  Everything else (ordinary data, `print_nothing`, and the bare
`file_t` tag, which has no dedicated overload) hits the catch-all overload and
leaves the record unchanged. -/
def addArg (o : print_options) : Arg → Option print_options
  | .sepVal v =>
      if o.set_sep then none else
      some (print_options.mk v o.endv o.file o.flush true o.set_endv o.set_file o.set_flush)
  | .endVal v =>
      if o.set_endv then none else
      some (print_options.mk o.sep v o.file o.flush o.set_sep true o.set_file o.set_flush)
  | .fileVal c =>
      if o.set_file then none else
      some (print_options.mk o.sep o.endv c o.flush o.set_sep o.set_endv true o.set_flush)
  | .flushVal b =>
      if o.set_flush then none else
      some (print_options.mk o.sep o.endv o.file b o.set_sep o.set_endv o.set_file true)
  | .sepTag =>
      if o.set_sep then none else
      some (print_options.mk Val.nothing o.endv o.file o.flush true o.set_endv o.set_file o.set_flush)
  | .endTag =>
      if o.set_endv then none else
      some (print_options.mk o.sep Val.nothing o.file o.flush o.set_sep true o.set_file o.set_flush)
  | .flushTag =>
      if o.set_flush then none else
      some (print_options.mk o.sep o.endv o.file true o.set_sep o.set_endv o.set_file true)
  | .data _ => some o
  | .nothing => some o
  | .fileTag => some o

/-- Source `printer::detail::combine_options`: the left fold of `operator+` over the
argument list. -/
def combine_options (o : print_options) : List Arg → Option print_options
  | [] => some o
  | a :: rest =>
      match addArg o a with
      | none => none
      | some o2 => combine_options o2 rest

/-- Source `printer::detail::print_can_possibly_flush`: some argument is a
`flush_t::value_t` binding or a bare `flush_t` tag. -/
def print_can_possibly_flush (args : List Arg) : Bool :=
  args.any fun a =>
    match a with
    | .flushVal _ => true
    | .flushTag => true
    | _ => false

/-- Source `printer::detail::print_will_always_flush`: some argument is a bare
`flush_t` tag. -/
def print_will_always_flush (args : List Arg) : Bool :=
  args.any fun a =>
    match a with
    | .flushTag => true
    | _ => false

/-- Source `printer::detail::print_flush`.  The flush strategy is abstracted by the
number `fc` of flush events one invocation of it performs (the default
`print_flusher` has `fc = 1`, the tests' `flush_twice` has `fc = 2`).
If `CanFlush && AlwaysFlush`: invoke the strategy unconditionally; if
`CanFlush && !AlwaysFlush`: invoke it iff the resolved flush flag is true;
if `!CanFlush`: do nothing. -/
def print_flush (alwaysF canF : Bool) (fc : Nat) (flushFlag : Bool) : List Event :=
  if canF then
    if alwaysF then List.replicate fc Event.flushEv
    else if flushFlag then List.replicate fc Event.flushEv
    else []
  else []

/-- The argument loop `printer::detail::print_impl`, as the trace of writes it
performs.  `ps` is the `PrintSep` template parameter (`ReadyToPrintSeparator`):
options are skipped, `print_nothing` is skipped and resets `ps` to false, and
printable data writes the separator first when `ps` holds and the separator is
not `print_nothing`, then writes the value and continues with `ps := true`. -/
def print_impl (sep : Val) : Bool → List Arg → List Event
  | _, [] => []
  | ps, a :: rest =>
      match kindOf a with
      | .opt => print_impl sep ps rest
      | .nul => print_impl sep false rest
      | .dataK v =>
          (if ps ∧ sep ≠ Val.nothing then [Event.write sep] else []) ++
            Event.write v :: print_impl sep true rest

/-- The `PrintSep` state after one argument. -/
def argPs (ps : Bool) (a : Arg) : Bool :=
  match kindOf a with
  | .opt => ps
  | .nul => false
  | .dataK _ => true

/-- The `PrintSep` state after a list of arguments. -/
def psState : Bool → List Arg → Bool
  | ps, [] => ps
  | ps, a :: rest => psState (argPs ps a) rest

/-- Source `printer::detail::print_end_impl`: write the terminator unless it is
`print_nothing_t`, in which case nothing at all is written. -/
def print_end_impl (e : Val) : List Event :=
  if e = Val.nothing then [] else [Event.write e]

/-- Source `printer::detail::print_impl_2`: argument loop (starting in the
not-ready-to-print-separator state), then terminator, then conditional flush. -/
def print_impl_2 (fc : Nat) (o : print_options) (args : List Arg) : List Event :=
  print_impl o.sep false args ++ print_end_impl o.endv ++
    print_flush (print_will_always_flush args) (print_can_possibly_flush args) fc o.flush

/-- The options record `print_impl_3` starts from: the entry point's default
separator and terminator, `std::cout` (channel id 0), flush flag `false`, and
no slot marked as explicitly set. -/
def default_options (dsep dendv : Val) : print_options :=
  print_options.mk dsep dendv 0 false false false false false

/-- Source `printer::detail::print_impl_3`: fold the options, then run the printing
algorithm.  The result is `none` when the call does not compile (duplicate
keyword binding), otherwise the resolved channel id and its event trace. -/
def print_impl_3 (fc : Nat) (dsep dendv : Val) (args : List Arg) :
    Option (Nat × List Event) :=
  match combine_options (default_options dsep dendv) args with
  | none => none
  | some o => some (o.file, print_impl_2 fc o args)

/-- Source `printer::print`: defaults sep = `' '` (space, ord 32) and
end = `'\n'` (newline, ord 10). -/
def print (fc : Nat) (args : List Arg) : Option (Nat × List Event) :=
  print_impl_3 fc (Val.ord 32) (Val.ord 10) args

/-- Source `printer::raw_print`: both defaults are `print_nothing`. -/
def raw_print (fc : Nat) (args : List Arg) : Option (Nat × List Event) :=
  print_impl_3 fc Val.nothing Val.nothing args

/-- Source `printer::print_no_end`: default sep = `' '`, default end = `print_nothing`. -/
def print_no_end (fc : Nat) (args : List Arg) : Option (Nat × List Event) :=
  print_impl_3 fc (Val.ord 32) Val.nothing args

/-- The values of the arguments `print_impl` treats as printable data (ordinary
values and the bare `file_t` tag), in order. -/
def printables : List Arg → List Val
  | [] => []
  | a :: rest =>
      match kindOf a with
      | .dataK v => v :: printables rest
      | _ => printables rest

/-- The four option slots of a `print_options` record. -/
inductive Slot where
  | sepS : Slot
  | endvS : Slot
  | fileS : Slot
  | flushS : Slot
deriving DecidableEq

/-- Whether a slot's set-bit is raised in the `Manipulated` bitset. -/
def slotSet (s : Slot) (o : print_options) : Bool :=
  match s with
  | .sepS => o.set_sep
  | .endvS => o.set_endv
  | .fileS => o.set_file
  | .flushS => o.set_flush

/-- Whether an argument binds the given slot (an explicit binding or a bare
tag; the bare `file_t` tag binds nothing). -/
def bindsSlot (s : Slot) (a : Arg) : Bool :=
  match s, a with
  | .sepS, .sepVal _ => true
  | .sepS, .sepTag => true
  | .endvS, .endVal _ => true
  | .endvS, .endTag => true
  | .fileS, .fileVal _ => true
  | .flushS, .flushVal _ => true
  | .flushS, .flushTag => true
  | _, _ => false

lemma addArg_nonopt {o : print_options} {a : Arg} (h : is_print_opt_value a = false) :
    addArg o a = some o := by
  cases a <;> simp_all [is_print_opt_value, addArg]

lemma kindOf_opt_iff {a : Arg} : kindOf a = Kind.opt ↔ is_print_opt_value a = true := by
  cases a <;> simp [kindOf, is_print_opt_value]

lemma addArg_dup {s : Slot} {o : print_options} {a : Arg}
    (hb : bindsSlot s a = true) (hs : slotSet s o = true) : addArg o a = none := by
  cases s <;> cases a <;> simp_all [bindsSlot, slotSet, addArg]

lemma addArg_sets {s : Slot} {o o2 : print_options} {a : Arg}
    (h : addArg o a = some o2) (hb : bindsSlot s a = true) : slotSet s o2 = true := by
  cases s <;> cases a <;> simp [bindsSlot] at hb
  all_goals
    simp only [addArg] at h
  all_goals
    split at h
  all_goals
    try (rw [Option.some_inj] at h; subst h)
  all_goals
    simp_all [slotSet]

lemma addArg_pres {s : Slot} {o o2 : print_options} {a : Arg}
    (h : addArg o a = some o2) (hb : bindsSlot s a = false) :
    slotSet s o2 = slotSet s o := by
  cases s <;> cases a <;> simp [bindsSlot] at hb
  all_goals
    simp only [addArg] at h
  all_goals
    try split at h
  all_goals
    try (rw [Option.some_inj] at h; subst h)
  all_goals
    simp_all [slotSet]

lemma addArg_flush_pres {o o2 : print_options} {a : Arg}
    (h : addArg o a = some o2) (hb : bindsSlot Slot.flushS a = false) :
    o2.flush = o.flush := by
  cases a <;> simp [bindsSlot] at hb
  all_goals
    simp only [addArg] at h
  all_goals
    try split at h
  all_goals
    try (rw [Option.some_inj] at h; subst h)
  all_goals
    simp_all

lemma addArg_flushVal {o o2 : print_options} {b : Bool}
    (h : addArg o (Arg.flushVal b) = some o2) : o2.flush = b := by
  simp only [addArg] at h
  split at h
  · exact absurd h (by simp)
  · rw [Option.some_inj] at h
    subst h
    rfl

lemma addArg_flushTag {o o2 : print_options}
    (h : addArg o Arg.flushTag = some o2) : o2.flush = true := by
  simp only [addArg] at h
  split at h
  · exact absurd h (by simp)
  · rw [Option.some_inj] at h
    subst h
    rfl

lemma combine_options_app (l r : List Arg) : ∀ o : print_options,
    combine_options o (l ++ r)
      = Option.bind (combine_options o l) (fun o2 => combine_options o2 r) := by
  induction l with
  | nil => intro o; simp [combine_options]
  | cons a rest ih =>
      intro o
      simp only [List.cons_append, combine_options]
      cases addArg o a <;> simp [ih]

lemma print_impl_app (sep : Val) (l r : List Arg) : ∀ ps : Bool,
    print_impl sep ps (l ++ r)
      = print_impl sep ps l ++ print_impl sep (psState ps l) r := by
  induction l with
  | nil => intro ps; simp [print_impl, psState]
  | cons a rest ih =>
      intro ps
      simp only [List.cons_append, print_impl, psState, argPs]
      cases h : kindOf a <;> simp [h, ih]

lemma combine_dup_set {s : Slot} : ∀ (args : List Arg) (o : print_options),
    slotSet s o = true → args.any (bindsSlot s) = true →
    combine_options o args = none := by
  intro args
  induction args with
  | nil => intro o _ h; simp at h
  | cons a rest ih =>
      intro o hs h
      simp only [combine_options]
      cases ha : addArg o a with
      | none => simp [ha]
      | some o1 =>
          simp only [ha]
          have hb : bindsSlot s a = false := by
            cases hba : bindsSlot s a
            · rfl
            · exact absurd ha (by rw [addArg_dup hba hs]; simp)
          have hrest : rest.any (bindsSlot s) = true := by
            simpa [List.any_cons, hb] using h
          exact ih o1 (by rw [addArg_pres ha hb]; exact hs) hrest

lemma combine_dup {s : Slot} : ∀ (args : List Arg) (o : print_options),
    slotSet s o = false → 2 ≤ List.countP (bindsSlot s) args →
    combine_options o args = none := by
  intro args
  induction args with
  | nil => intro o _ h; simp [List.countP_nil] at h
  | cons a rest ih =>
      intro o hs h
      simp only [combine_options]
      cases ha : addArg o a with
      | none => simp [ha]
      | some o1 =>
          simp only [ha]
          cases hba : bindsSlot s a with
          | false =>
              have hc : 2 ≤ List.countP (bindsSlot s) rest := by
                rw [List.countP_cons, hba] at h
                simpa using h
              exact ih o1 (by rw [addArg_pres ha hba]; exact hs) hc
          | true =>
              have hs1 := addArg_sets ha hba
              have hr : rest.any (bindsSlot s) = true := by
                rw [List.countP_cons, hba] at h
                simp only [if_true] at h
                have hpos : 0 < List.countP (bindsSlot s) rest := by omega
                rw [List.countP_pos_iff] at hpos
                obtain ⟨x, hx, hpx⟩ := hpos
                exact List.any_eq_true.mpr ⟨x, hx, hpx⟩
              exact combine_dup_set rest o1 hs1 hr

lemma combine_set_flush : ∀ (args : List Arg) (o o2 : print_options),
    o.set_flush = true → combine_options o args = some o2 →
    o2.flush = o.flush ∧ args.any (bindsSlot Slot.flushS) = false := by
  intro args
  induction args with
  | nil =>
      intro o o2 hs h
      simp only [combine_options, Option.some_inj] at h
      subst h
      simp
  | cons a rest ih =>
      intro o o2 hs h
      simp only [combine_options] at h
      cases ha : addArg o a with
      | none => simp [ha] at h
      | some o1 =>
          simp only [ha] at h
          have hb : bindsSlot Slot.flushS a = false := by
            cases hba : bindsSlot Slot.flushS a
            · rfl
            · exact absurd ha (by rw [addArg_dup hba (show slotSet Slot.flushS o = true from hs)]; simp)
          have hsf : o1.set_flush = true := by
            have hp := addArg_pres (s := Slot.flushS) ha hb
            simp only [slotSet] at hp
            rw [hp]
            exact hs
          obtain ⟨h1, h2⟩ := ih o1 o2 hsf h
          refine ⟨by rw [h1, addArg_flush_pres ha hb], ?_⟩
          simp [List.any_cons, hb, h2]

lemma combine_flushVal : ∀ (args : List Arg) (o o2 : print_options) (b : Bool),
    o.set_flush = false → combine_options o args = some o2 →
    Arg.flushVal b ∈ args →
    o2.flush = b ∧ Arg.flushTag ∉ args := by
  intro args
  induction args with
  | nil => intro o o2 b _ _ hm; simp at hm
  | cons a rest ih =>
      intro o o2 b hs h hm
      simp only [combine_options] at h
      cases ha : addArg o a with
      | none => simp [ha] at h
      | some o1 =>
          simp only [ha] at h
          rcases List.mem_cons.mp hm with he | hm2
          · subst he
            have hflag : o1.set_flush = true := by
              have hx := addArg_sets (s := Slot.flushS) ha (by simp [bindsSlot])
              simpa [slotSet] using hx
            obtain ⟨h1, h2⟩ := combine_set_flush rest o1 o2 hflag h
            refine ⟨by rw [h1, addArg_flushVal ha], ?_⟩
            intro hmem
            rcases List.mem_cons.mp hmem with hx | hx
            · exact absurd hx (by simp)
            · have hany : rest.any (bindsSlot Slot.flushS) = true :=
                List.any_eq_true.mpr ⟨_, hx, by simp [bindsSlot]⟩
              simp [hany] at h2
          · cases hba : bindsSlot Slot.flushS a with
            | true =>
                have hflag := addArg_sets ha hba
                obtain ⟨_, h2⟩ := combine_set_flush rest o1 o2 (by simpa [slotSet] using hflag) h
                have hany : rest.any (bindsSlot Slot.flushS) = true :=
                  List.any_eq_true.mpr ⟨_, hm2, by simp [bindsSlot]⟩
                simp [hany] at h2
            | false =>
                have hs1 : o1.set_flush = false := by
                  have hp := addArg_pres (s := Slot.flushS) ha hba
                  simp only [slotSet] at hp
                  rw [hp]
                  exact hs
                obtain ⟨h1, h2⟩ := ih o1 o2 b hs1 h hm2
                refine ⟨h1, ?_⟩
                intro hmem
                rcases List.mem_cons.mp hmem with hx | hx
                · subst hx; simp [bindsSlot] at hba
                · exact h2 hx

lemma combine_flushTag : ∀ (args : List Arg) (o o2 : print_options),
    o.set_flush = false → combine_options o args = some o2 →
    Arg.flushTag ∈ args → o2.flush = true := by
  intro args
  induction args with
  | nil => intro o o2 _ _ hm; simp at hm
  | cons a rest ih =>
      intro o o2 hs h hm
      simp only [combine_options] at h
      cases ha : addArg o a with
      | none => simp [ha] at h
      | some o1 =>
          simp only [ha] at h
          rcases List.mem_cons.mp hm with he | hm2
          · subst he
            have hflag : o1.set_flush = true := by
              have hx := addArg_sets (s := Slot.flushS) ha (by simp [bindsSlot])
              simpa [slotSet] using hx
            obtain ⟨h1, _⟩ := combine_set_flush rest o1 o2 hflag h
            rw [h1, addArg_flushTag ha]
          · cases hba : bindsSlot Slot.flushS a with
            | true =>
                have hflag := addArg_sets ha hba
                obtain ⟨_, h2⟩ := combine_set_flush rest o1 o2 (by simpa [slotSet] using hflag) h
                have hany : rest.any (bindsSlot Slot.flushS) = true :=
                  List.any_eq_true.mpr ⟨_, hm2, by simp [bindsSlot]⟩
                simp [hany] at h2
            | false =>
                have hs1 : o1.set_flush = false := by
                  have hp := addArg_pres (s := Slot.flushS) ha hba
                  simp only [slotSet] at hp
                  rw [hp]
                  exact hs
                exact ih o1 o2 hs1 h hm2

lemma can_flush_eq (args : List Arg) :
    print_can_possibly_flush args = args.any (bindsSlot Slot.flushS) := by
  unfold print_can_possibly_flush
  congr 1
  funext a
  cases a <;> rfl

lemma will_always_iff (args : List Arg) :
    print_will_always_flush args = true ↔ Arg.flushTag ∈ args := by
  unfold print_will_always_flush
  rw [List.any_eq_true]
  constructor
  · rintro ⟨a, ha, hp⟩
    cases a <;> simp_all
  · intro h
    exact ⟨_, h, rfl⟩

lemma print_impl_opts {os : List Arg} (h : ∀ a ∈ os, is_print_opt_value a = true) :
    ∀ (sep : Val) (ps : Bool), print_impl sep ps os = [] := by
  induction os with
  | nil => intro sep ps; rfl
  | cons a rest ih =>
      intro sep ps
      have hk : kindOf a = Kind.opt := kindOf_opt_iff.mpr (h a (by simp))
      simp only [print_impl, hk]
      exact ih (fun x hx => h x (by simp [hx])) sep ps

lemma psState_opts {os : List Arg} (h : ∀ a ∈ os, is_print_opt_value a = true) :
    ∀ ps : Bool, psState ps os = ps := by
  induction os with
  | nil => intro ps; rfl
  | cons a rest ih =>
      intro ps
      have hk : kindOf a = Kind.opt := kindOf_opt_iff.mpr (h a (by simp))
      simp only [psState, argPs, hk]
      exact ih (fun x hx => h x (by simp [hx])) ps

lemma flushEv_not_mem_print_impl (sep : Val) : ∀ (ps : Bool) (args : List Arg),
    Event.flushEv ∉ print_impl sep ps args := by
  intro ps args
  induction args generalizing ps with
  | nil => simp [print_impl]
  | cons a rest ih =>
      cases hk : kindOf a with
      | opt => simp only [print_impl, hk]; exact ih ps
      | nul => simp only [print_impl, hk]; exact ih false
      | dataK v =>
          simp only [print_impl, hk]
          intro hmem
          rw [List.mem_append] at hmem
          rcases hmem with h | h
          · revert h; split <;> simp
          · rw [List.mem_cons] at h
            rcases h with h | h
            · exact absurd h (by simp)
            · exact ih true h

lemma flushEv_not_mem_end_impl (e : Val) : Event.flushEv ∉ print_end_impl e := by
  unfold print_end_impl
  split <;> simp

lemma print_impl_no_nul {args : List Arg} (h : ∀ a ∈ args, kindOf a ≠ Kind.nul)
    {sep : Val} (hs : sep ≠ Val.nothing) : ∀ ps : Bool,
    print_impl sep ps args
      = (if ps = true ∧ printables args ≠ [] then [Event.write sep] else [])
          ++ List.intersperse (Event.write sep) ((printables args).map Event.write) := by
  induction args with
  | nil => intro ps; simp [print_impl, printables]
  | cons a rest ih =>
      intro ps
      cases hk : kindOf a with
      | opt =>
          simp only [print_impl, printables, hk]
          exact ih (fun x hx => h x (List.mem_cons_of_mem _ hx)) ps
      | nul => exact absurd hk (h a (by simp))
      | dataK v =>
          simp only [print_impl, printables, hk]
          rw [ih (fun x hx => h x (List.mem_cons_of_mem _ hx)) true]
          cases hr : printables rest with
          | nil => cases ps <;> simp [hs, hr]
          | cons x xs =>
              cases ps <;>
                simp [hs, hr, List.intersperse_cons_cons, List.map_cons]

/-- Claim C1 (amended: restricted to calls with no Sentinel argument; printable
means classified as printable data by the dispatch, which includes the bare
`file_t` tag): when the resolved separator is not Sentinel and there are at
least two printables, the output is exactly the printable values interspersed
with single separator writes — never before the first printable, never after
the last one (the terminator and flush follow) — followed by the terminator
part and the flush part. -/
theorem C1_separator_placement (fc : Nat) (dsep dendv : Val) (args : List Arg)
    (o : print_options)
    (hm : combine_options (default_options dsep dendv) args = some o)
    (hsep : o.sep ≠ Val.nothing)
    (hnos : ∀ a ∈ args, kindOf a ≠ Kind.nul)
    (_hlen : 2 ≤ (printables args).length) :
    print_impl_3 fc dsep dendv args
      = some (o.file,
          List.intersperse (Event.write o.sep) ((printables args).map Event.write)
            ++ print_end_impl o.endv
            ++ print_flush (print_will_always_flush args)
                (print_can_possibly_flush args) fc o.flush) := by
  simp only [print_impl_3, hm, print_impl_2]
  rw [print_impl_no_nul hnos hsep false]
  simp

/-- Claim C1, as frozen, is false: in `print("a", Sentinel, "b")` the printable
argument sequence has length two and the resolved separator (space, `ord 32`)
is not Sentinel, yet no separator write occurs anywhere in the trace. -/
theorem C1_counterexample :
    combine_options (default_options (Val.ord 32) (Val.ord 10))
        [Arg.data 0, Arg.nothing, Arg.data 1]
      = some (default_options (Val.ord 32) (Val.ord 10))
    ∧ (default_options (Val.ord 32) (Val.ord 10)).sep ≠ Val.nothing
    ∧ (printables [Arg.data 0, Arg.nothing, Arg.data 1]).length = 2
    ∧ print 1 [Arg.data 0, Arg.nothing, Arg.data 1]
        = some (0, [Event.write (Val.ord 0), Event.write (Val.ord 1),
            Event.write (Val.ord 10)])
    ∧ Event.write (Val.ord 32)
        ∉ [Event.write (Val.ord 0), Event.write (Val.ord 1),
            Event.write (Val.ord 10)] := by
  decide

theorem C1_witness :
    (2 ≤ (printables [Arg.data 0, Arg.data 1]).length)
    ∧ print_impl_3 1 (Val.ord 32) (Val.ord 10) [Arg.data 0, Arg.data 1]
        = some (0, [Event.write (Val.ord 0), Event.write (Val.ord 32),
            Event.write (Val.ord 1), Event.write (Val.ord 10)]) := by
  refine ⟨by decide, ?_⟩
  have h := C1_separator_placement 1 (Val.ord 32) (Val.ord 10)
      [Arg.data 0, Arg.data 1] (default_options (Val.ord 32) (Val.ord 10))
      (by decide) (by decide) (by decide) (by decide)
  exact h.trans (by decide)

lemma combine_options_mid_nonopt {a : Arg} (h : is_print_opt_value a = false)
    (l r : List Arg) (o : print_options) :
    combine_options o (l ++ a :: r) = combine_options o (l ++ r) := by
  rw [combine_options_app, combine_options_app]
  congr 1
  funext o2
  simp only [combine_options, addArg_nonopt h]

lemma any_mid_nonflush {a : Arg} (h : bindsSlot Slot.flushS a = false)
    (l r : List Arg) (p : Arg → Bool)
    (hp : ∀ x, p x = true → bindsSlot Slot.flushS x = true) :
    (l ++ a :: r).any p = (l ++ r).any p := by
  have hpa : p a = false := by
    cases hx : p a
    · rfl
    · rw [hp a hx] at h; exact absurd h (by simp)
  simp [List.any_append, List.any_cons, hpa]

/-- Claim C2: a Sentinel argument is never itself written and resets the
machine to the awaiting-separator state; inserting one Sentinel between two
adjacent printable arguments removes exactly the one separator write that
would have been emitted between them (none when the resolved separator is
Sentinel anyway), and leaves every other event of the call unchanged. -/
theorem C2_sentinel_suppression (fc : Nat) (dsep dendv : Val) (l r : List Arg)
    (x y : Nat) (o : print_options)
    (hm : combine_options (default_options dsep dendv)
        (l ++ Arg.data x :: Arg.data y :: r) = some o) :
    print_impl_3 fc dsep dendv (l ++ Arg.data x :: Arg.data y :: r)
      = some (o.file,
          (print_impl o.sep false l
              ++ (if psState false l ∧ o.sep ≠ Val.nothing
                  then [Event.write o.sep] else [])
              ++ [Event.write (Val.ord x)])
            ++ (if o.sep ≠ Val.nothing then [Event.write o.sep] else [])
            ++ (Event.write (Val.ord y) :: print_impl o.sep true r
              ++ print_end_impl o.endv
              ++ print_flush
                  (print_will_always_flush (l ++ Arg.data x :: Arg.data y :: r))
                  (print_can_possibly_flush (l ++ Arg.data x :: Arg.data y :: r))
                  fc o.flush))
    ∧ print_impl_3 fc dsep dendv (l ++ Arg.data x :: Arg.nothing :: Arg.data y :: r)
      = some (o.file,
          (print_impl o.sep false l
              ++ (if psState false l ∧ o.sep ≠ Val.nothing
                  then [Event.write o.sep] else [])
              ++ [Event.write (Val.ord x)])
            ++ (Event.write (Val.ord y) :: print_impl o.sep true r
              ++ print_end_impl o.endv
              ++ print_flush
                  (print_will_always_flush (l ++ Arg.data x :: Arg.data y :: r))
                  (print_can_possibly_flush (l ++ Arg.data x :: Arg.data y :: r))
                  fc o.flush)) := by
  have hm2 : combine_options (default_options dsep dendv)
      (l ++ Arg.data x :: Arg.nothing :: Arg.data y :: r) = some o := by
    rw [show l ++ Arg.data x :: Arg.nothing :: Arg.data y :: r
          = (l ++ [Arg.data x]) ++ Arg.nothing :: (Arg.data y :: r) by simp]
    rw [combine_options_mid_nonopt (a := Arg.nothing) rfl]
    simpa using hm
  have hw : print_will_always_flush (l ++ Arg.data x :: Arg.nothing :: Arg.data y :: r)
      = print_will_always_flush (l ++ Arg.data x :: Arg.data y :: r) := by
    unfold print_will_always_flush
    rw [show l ++ Arg.data x :: Arg.nothing :: Arg.data y :: r
          = (l ++ [Arg.data x]) ++ Arg.nothing :: (Arg.data y :: r) by simp]
    rw [any_mid_nonflush (a := Arg.nothing) rfl _ _ _ (fun a => by cases a <;> simp [bindsSlot])]
    simp
  have hc : print_can_possibly_flush (l ++ Arg.data x :: Arg.nothing :: Arg.data y :: r)
      = print_can_possibly_flush (l ++ Arg.data x :: Arg.data y :: r) := by
    unfold print_can_possibly_flush
    rw [show l ++ Arg.data x :: Arg.nothing :: Arg.data y :: r
          = (l ++ [Arg.data x]) ++ Arg.nothing :: (Arg.data y :: r) by simp]
    rw [any_mid_nonflush (a := Arg.nothing) rfl _ _ _ (fun a => by cases a <;> simp [bindsSlot])]
    simp
  constructor
  · simp only [print_impl_3, hm, print_impl_2]
    rw [print_impl_app]
    simp [print_impl, kindOf]
  · simp only [print_impl_3, hm2, print_impl_2, hw, hc]
    rw [print_impl_app]
    simp [print_impl, kindOf]

theorem C2_witness :
    print_impl_3 1 (Val.ord 32) (Val.ord 10) ([] ++ Arg.data 0 :: Arg.data 1 :: [])
        = some (0, [Event.write (Val.ord 0), Event.write (Val.ord 32),
            Event.write (Val.ord 1), Event.write (Val.ord 10)])
    ∧ print_impl_3 1 (Val.ord 32) (Val.ord 10)
          ([] ++ Arg.data 0 :: Arg.nothing :: Arg.data 1 :: [])
        = some (0, [Event.write (Val.ord 0), Event.write (Val.ord 1),
            Event.write (Val.ord 10)]) := by
  obtain ⟨h1, h2⟩ := C2_sentinel_suppression 1 (Val.ord 32) (Val.ord 10) [] [] 0 1
      (default_options (Val.ord 32) (Val.ord 10)) (by decide)
  exact ⟨h1.trans (by decide), h2.trans (by decide)⟩

/-- Claim C3: after the arguments are consumed the resolved terminator is
written exactly once, unless it is Sentinel, in which case no terminator write
happens at all; `print()` with no arguments writes exactly the newline
terminator and nothing else. -/
theorem C3_terminator (fc : Nat) (dsep dendv : Val) (args : List Arg)
    (o : print_options)
    (hm : combine_options (default_options dsep dendv) args = some o) :
    print_impl_3 fc dsep dendv args
      = some (o.file,
          print_impl o.sep false args
            ++ (if o.endv = Val.nothing then [] else [Event.write o.endv])
            ++ print_flush (print_will_always_flush args)
                (print_can_possibly_flush args) fc o.flush)
    ∧ print_impl_3 fc (Val.ord 32) (Val.ord 10) []
        = some (0, [Event.write (Val.ord 10)]) := by
  constructor
  · simp only [print_impl_3, hm, print_impl_2, print_end_impl]
  · simp [print_impl_3, combine_options, default_options, print_impl_2,
      print_impl, print_end_impl, print_flush, print_can_possibly_flush,
      print_will_always_flush]

theorem C3_witness :
    print_impl_3 1 (Val.ord 32) (Val.ord 10) [Arg.endVal Val.nothing] = some (0, [])
    ∧ print_impl_3 1 (Val.ord 32) (Val.ord 10) [] = some (0, [Event.write (Val.ord 10)]) := by
  obtain ⟨h1, h2⟩ := C3_terminator 1 (Val.ord 32) (Val.ord 10) [Arg.endVal Val.nothing]
      (print_options.mk (Val.ord 32) Val.nothing 0 false false true false false) (by decide)
  exact ⟨h1.trans (by decide), h2⟩

/-- Claim C4: binding the same option slot more than once in a single call —
via explicit bindings or bare tags — makes the merge fold fail (modelled as
`none`, the `static_assert` compile-time failure). -/
theorem C4_duplicate_binding (dsep dendv : Val) (args : List Arg)
    (h : ∃ s : Slot, 2 ≤ List.countP (bindsSlot s) args) :
    combine_options (default_options dsep dendv) args = none := by
  obtain ⟨s, hs⟩ := h
  exact combine_dup args _ (by cases s <;> rfl) hs

theorem C4_witness :
    (∃ s : Slot, 2 ≤ List.countP (bindsSlot s) [Arg.sepVal (Val.ord 1), Arg.sepTag])
    ∧ combine_options (default_options (Val.ord 32) (Val.ord 10))
        [Arg.sepVal (Val.ord 1), Arg.sepTag] = none :=
  ⟨⟨Slot.sepS, by decide⟩,
    C4_duplicate_binding (Val.ord 32) (Val.ord 10) _ ⟨Slot.sepS, by decide⟩⟩

/-- Claim C10: the bare `file_t` tag is not recognised as an option by the
binding classifier (unlike the bare `sep`, `end` and `flush` tags), the merge
leaves the record unchanged on it, and the printing algorithm treats it as
printable data: it participates in separator bookkeeping and is written to the
channel. -/
theorem C10_bare_file_tag :
    is_print_opt_value Arg.fileTag = false
    ∧ is_print_opt_value Arg.sepTag = true
    ∧ is_print_opt_value Arg.endTag = true
    ∧ is_print_opt_value Arg.flushTag = true
    ∧ (∀ o : print_options, addArg o Arg.fileTag = some o)
    ∧ (∀ (sep : Val) (ps : Bool) (rest : List Arg),
        print_impl sep ps (Arg.fileTag :: rest)
          = (if ps ∧ sep ≠ Val.nothing then [Event.write sep] else [])
              ++ Event.write Val.fileTagV :: print_impl sep true rest)
    ∧ print 1 [Arg.data 0, Arg.fileTag]
        = some (0, [Event.write (Val.ord 0), Event.write (Val.ord 32),
            Event.write Val.fileTagV, Event.write (Val.ord 10)]) :=
  ⟨rfl, rfl, rfl, rfl, fun _ => rfl, fun _ _ _ => rfl, by decide⟩

/-- Claim C5: with no flush-related argument the flush strategy is never
invoked; with `flush=false` it is never invoked; with `flush=true` it is
invoked exactly once per call (a strategy performing `fc` flushes performs
`fc`); with the bare `flush` tag the strategy runs unconditionally, ignoring
the resolved flush flag. -/
theorem C5_flush_gating (fc : Nat) (dsep dendv : Val) (args : List Arg)
    (c : Nat) (tr : List Event)
    (htr : print_impl_3 fc dsep dendv args = some (c, tr)) :
    (print_can_possibly_flush args = false → tr.count Event.flushEv = 0)
    ∧ (Arg.flushVal false ∈ args → tr.count Event.flushEv = 0)
    ∧ (Arg.flushVal true ∈ args → tr.count Event.flushEv = fc)
    ∧ (Arg.flushTag ∈ args → tr.count Event.flushEv = fc)
    ∧ (∀ b : Bool, print_will_always_flush args = true →
        print_flush (print_will_always_flush args) (print_can_possibly_flush args) fc b
          = List.replicate fc Event.flushEv) := by
  unfold print_impl_3 at htr
  cases hm : combine_options (default_options dsep dendv) args with
  | none => rw [hm] at htr; exact absurd htr (by simp)
  | some o =>
      rw [hm] at htr
      simp only [Option.some_inj, Prod.mk.injEq] at htr
      have htr2 : tr = print_impl_2 fc o args := htr.2.symm
      have hcount : tr.count Event.flushEv
          = (print_flush (print_will_always_flush args)
              (print_can_possibly_flush args) fc o.flush).count Event.flushEv := by
        rw [htr2]
        unfold print_impl_2
        rw [List.count_append, List.count_append,
          List.count_eq_zero_of_not_mem (flushEv_not_mem_print_impl o.sep false args),
          List.count_eq_zero_of_not_mem (flushEv_not_mem_end_impl o.endv)]
        simp
      have hsf : (default_options dsep dendv).set_flush = false := rfl
      refine ⟨?_, ?_, ?_, ?_, ?_⟩
      · intro hcan
        rw [hcount]
        simp [print_flush, hcan]
      · intro hmem
        obtain ⟨hfl, htag⟩ := combine_flushVal args _ o false hsf hm hmem
        have hwa : print_will_always_flush args = false := by
          cases hx : print_will_always_flush args
          · rfl
          · exact absurd ((will_always_iff args).mp hx) htag
        rw [hcount, hwa, hfl]
        simp [print_flush]
      · intro hmem
        obtain ⟨hfl, htag⟩ := combine_flushVal args _ o true hsf hm hmem
        have hwa : print_will_always_flush args = false := by
          cases hx : print_will_always_flush args
          · rfl
          · exact absurd ((will_always_iff args).mp hx) htag
        have hcan : print_can_possibly_flush args = true :=
          List.any_eq_true.mpr ⟨_, hmem, rfl⟩
        rw [hcount, hwa, hcan, hfl]
        simp [print_flush]
      · intro hmem
        have hfl : o.flush = true := combine_flushTag args _ o hsf hm hmem
        have hwa : print_will_always_flush args = true := (will_always_iff args).mpr hmem
        have hcan : print_can_possibly_flush args = true :=
          List.any_eq_true.mpr ⟨_, hmem, rfl⟩
        rw [hcount, hwa, hcan]
        simp [print_flush]
      · intro b hwa
        have hcan : print_can_possibly_flush args = true :=
          List.any_eq_true.mpr ⟨_, (will_always_iff args).mp hwa, rfl⟩
        rw [hwa, hcan]
        simp [print_flush]

theorem C5_witness :
    print_impl_3 2 (Val.ord 32) (Val.ord 10) [Arg.flushVal true]
      = some (0, [Event.write (Val.ord 10), Event.flushEv, Event.flushEv])
    ∧ ([Event.write (Val.ord 10), Event.flushEv, Event.flushEv].count Event.flushEv = 2) := by
  refine ⟨by decide, ?_⟩
  have h := C5_flush_gating 2 (Val.ord 32) (Val.ord 10) [Arg.flushVal true] 0
      [Event.write (Val.ord 10), Event.flushEv, Event.flushEv] (by decide)
  exact h.2.2.1 (by decide)

/-- Two lists interleaved into a third, each keeping its relative order. -/
inductive Interleave : List Arg → List Arg → List Arg → Prop where
  | nil : Interleave [] [] []
  | left {a : Arg} {xs ys zs : List Arg} :
      Interleave xs ys zs → Interleave (a :: xs) ys (a :: zs)
  | right {b : Arg} {xs ys zs : List Arg} :
      Interleave xs ys zs → Interleave xs (b :: ys) (b :: zs)

lemma combine_all_nonopt : ∀ (l : List Arg),
    (∀ a ∈ l, is_print_opt_value a = false) →
    ∀ o : print_options, combine_options o l = some o := by
  intro l
  induction l with
  | nil => intro _ o; rfl
  | cons a rest ih =>
      intro h o
      simp only [combine_options, addArg_nonopt (h a (by simp))]
      exact ih (fun x hx => h x (by simp [hx])) o

lemma interleave_combine : ∀ {os ps zs : List Arg}, Interleave os ps zs →
    (∀ a ∈ ps, is_print_opt_value a = false) →
    ∀ o : print_options, combine_options o zs = combine_options o os := by
  intro os ps zs hI
  induction hI with
  | nil => intro _ o; rfl
  | @left a xs ys zs h ih =>
      intro hp o
      simp only [combine_options]
      cases haa : addArg o a with
      | none => rfl
      | some o1 => exact ih hp o1
  | @right b xs ys zs h ih =>
      intro hp o
      simp only [combine_options, addArg_nonopt (hp b (by simp))]
      exact ih (fun x hx => hp x (by simp [hx])) o

lemma interleave_print_impl : ∀ {os ps zs : List Arg}, Interleave os ps zs →
    (∀ a ∈ os, is_print_opt_value a = true) →
    ∀ (sep : Val) (st : Bool), print_impl sep st zs = print_impl sep st ps := by
  intro os ps zs hI
  induction hI with
  | nil => intro _ _ _; rfl
  | @left a xs ys zs h ih =>
      intro ho sep st
      have hk : kindOf a = Kind.opt := kindOf_opt_iff.mpr (ho a (by simp))
      simp only [print_impl, hk]
      exact ih (fun x hx => ho x (by simp [hx])) sep st
  | @right b xs ys zs h ih =>
      intro ho sep st
      cases hk : kindOf b with
      | opt => simp only [print_impl, hk]; exact ih ho sep st
      | nul => simp only [print_impl, hk]; exact ih ho sep false
      | dataK v => simp only [print_impl, hk]; rw [ih ho sep true]

lemma interleave_any : ∀ {os ps zs : List Arg}, Interleave os ps zs →
    ∀ p : Arg → Bool, zs.any p = (os.any p || ps.any p) := by
  intro os ps zs hI
  induction hI with
  | nil => intro p; rfl
  | @left a xs ys zs h ih =>
      intro p
      simp only [List.any_cons, ih p, Bool.or_assoc]
  | @right b xs ys zs h ih =>
      intro p
      simp only [List.any_cons, ih p]
      cases p b <;> cases hx : xs.any p <;> simp


/-- Claim C6: the output of a call is invariant under where the option
arguments (bindings and bare tags) sit relative to the printable arguments:
any interleaving produces the same result as the canonical call with all
options first, so bound values are honoured regardless of position, options
are elided from the output, and printable order is preserved. -/
theorem C6_option_position (fc : Nat) (dsep dendv : Val) (os ps zs : List Arg)
    (hI : Interleave os ps zs)
    (ho : ∀ a ∈ os, is_print_opt_value a = true)
    (hp : ∀ a ∈ ps, is_print_opt_value a = false) :
    print_impl_3 fc dsep dendv zs = print_impl_3 fc dsep dendv (os ++ ps) := by
  have hcomb : ∀ o : print_options,
      combine_options o zs = combine_options o (os ++ ps) := by
    intro o
    rw [interleave_combine hI hp o, combine_options_app]
    cases h : combine_options o os with
    | none => rfl
    | some o1 => simp [combine_all_nonopt ps hp o1]
  unfold print_impl_3
  rw [hcomb (default_options dsep dendv)]
  cases hm : combine_options (default_options dsep dendv) (os ++ ps) with
  | none => rfl
  | some o =>
      simp only [hm, Option.some_inj, Prod.mk.injEq]
      have h1 : print_impl o.sep false zs = print_impl o.sep false (os ++ ps) := by
        rw [interleave_print_impl hI ho o.sep false, print_impl_app,
          print_impl_opts ho, psState_opts ho]
        simp
      have h2 : print_can_possibly_flush zs = print_can_possibly_flush (os ++ ps) := by
        unfold print_can_possibly_flush
        rw [interleave_any hI, List.any_append]
      have h3 : print_will_always_flush zs = print_will_always_flush (os ++ ps) := by
        unfold print_will_always_flush
        rw [interleave_any hI, List.any_append]
      refine ⟨trivial, ?_⟩
      unfold print_impl_2
      rw [h1, h2, h3]

theorem C6_witness :
    print_impl_3 1 (Val.ord 32) (Val.ord 10)
        [Arg.data 0, Arg.sepVal (Val.ord 43), Arg.data 1]
      = print_impl_3 1 (Val.ord 32) (Val.ord 10)
          ([Arg.sepVal (Val.ord 43)] ++ [Arg.data 0, Arg.data 1]) :=
  C6_option_position 1 (Val.ord 32) (Val.ord 10)
    [Arg.sepVal (Val.ord 43)] [Arg.data 0, Arg.data 1]
    [Arg.data 0, Arg.sepVal (Val.ord 43), Arg.data 1]
    (Interleave.right (Interleave.left (Interleave.right Interleave.nil)))
    (by decide) (by decide)


lemma combine_swap_tag (l r : List Arg) (o : print_options) (a b : Arg)
    (hab : ∀ o2 : print_options, addArg o2 a = addArg o2 b) :
    combine_options o (l ++ a :: r) = combine_options o (l ++ b :: r) := by
  rw [combine_options_app, combine_options_app]
  congr 1
  funext o2
  simp only [combine_options, hab o2]

lemma print_impl_swap_opt (sep : Val) (l r : List Arg) (a b : Arg)
    (ha : kindOf a = Kind.opt) (hb : kindOf b = Kind.opt) (st : Bool) :
    print_impl sep st (l ++ a :: r) = print_impl sep st (l ++ b :: r) := by
  rw [print_impl_app, print_impl_app]
  congr 1
  simp only [print_impl, ha, hb]

lemma any_swap (l r : List Arg) (p : Arg → Bool) (a b : Arg) (hab : p a = p b) :
    (l ++ a :: r).any p = (l ++ b :: r).any p := by
  simp [List.any_append, List.any_cons, hab]

/-- Claim C7: a bare tag is observationally equivalent to its documented
default binding — bare `sep` to `sep=Sentinel`, bare `end` to `end=Sentinel`,
bare `flush` to `flush=true` — at any position in the argument list: the whole
call produces identical results (including identical compile failures and
identical flush behaviour). -/
theorem C7_bare_tag_defaults (fc : Nat) (dsep dendv : Val) (l r : List Arg) :
    print_impl_3 fc dsep dendv (l ++ Arg.sepTag :: r)
      = print_impl_3 fc dsep dendv (l ++ Arg.sepVal Val.nothing :: r)
    ∧ print_impl_3 fc dsep dendv (l ++ Arg.endTag :: r)
      = print_impl_3 fc dsep dendv (l ++ Arg.endVal Val.nothing :: r)
    ∧ print_impl_3 fc dsep dendv (l ++ Arg.flushTag :: r)
      = print_impl_3 fc dsep dendv (l ++ Arg.flushVal true :: r) := by
  refine ⟨?_, ?_, ?_⟩
  · unfold print_impl_3
    rw [combine_swap_tag l r _ Arg.sepTag (Arg.sepVal Val.nothing) (fun o2 => rfl)]
    cases hm : combine_options (default_options dsep dendv)
        (l ++ Arg.sepVal Val.nothing :: r) with
    | none => rfl
    | some o =>
        have hX : print_impl_2 fc o (l ++ Arg.sepTag :: r)
            = print_impl_2 fc o (l ++ Arg.sepVal Val.nothing :: r) := by
          unfold print_impl_2
          have hcan : print_can_possibly_flush (l ++ Arg.sepTag :: r)
              = print_can_possibly_flush (l ++ Arg.sepVal Val.nothing :: r) := by
            unfold print_can_possibly_flush
            exact any_swap l r _ _ _ rfl
          have hwill : print_will_always_flush (l ++ Arg.sepTag :: r)
              = print_will_always_flush (l ++ Arg.sepVal Val.nothing :: r) := by
            unfold print_will_always_flush
            exact any_swap l r _ _ _ rfl
          rw [hcan, hwill,
            print_impl_swap_opt o.sep l r Arg.sepTag (Arg.sepVal Val.nothing) rfl rfl false]
        exact congrArg (fun t => some (o.file, t)) hX
  · unfold print_impl_3
    rw [combine_swap_tag l r _ Arg.endTag (Arg.endVal Val.nothing) (fun o2 => rfl)]
    cases hm : combine_options (default_options dsep dendv)
        (l ++ Arg.endVal Val.nothing :: r) with
    | none => rfl
    | some o =>
        have hX : print_impl_2 fc o (l ++ Arg.endTag :: r)
            = print_impl_2 fc o (l ++ Arg.endVal Val.nothing :: r) := by
          unfold print_impl_2
          have hcan : print_can_possibly_flush (l ++ Arg.endTag :: r)
              = print_can_possibly_flush (l ++ Arg.endVal Val.nothing :: r) := by
            unfold print_can_possibly_flush
            exact any_swap l r _ _ _ rfl
          have hwill : print_will_always_flush (l ++ Arg.endTag :: r)
              = print_will_always_flush (l ++ Arg.endVal Val.nothing :: r) := by
            unfold print_will_always_flush
            exact any_swap l r _ _ _ rfl
          rw [hcan, hwill,
            print_impl_swap_opt o.sep l r Arg.endTag (Arg.endVal Val.nothing) rfl rfl false]
        exact congrArg (fun t => some (o.file, t)) hX
  · unfold print_impl_3
    rw [combine_swap_tag l r _ Arg.flushTag (Arg.flushVal true) (fun o2 => rfl)]
    cases hm : combine_options (default_options dsep dendv)
        (l ++ Arg.flushVal true :: r) with
    | none => rfl
    | some o =>
        have hmem : Arg.flushVal true ∈ l ++ Arg.flushVal true :: r := by simp
        obtain ⟨hfl, htag⟩ := combine_flushVal _ _ o true rfl hm hmem
        have hX : print_impl_2 fc o (l ++ Arg.flushTag :: r)
            = print_impl_2 fc o (l ++ Arg.flushVal true :: r) := by
          unfold print_impl_2
          have hw2 : print_will_always_flush (l ++ Arg.flushVal true :: r) = false := by
            cases hx : print_will_always_flush (l ++ Arg.flushVal true :: r)
            · rfl
            · exact absurd ((will_always_iff _).mp hx) htag
          have hw1 : print_will_always_flush (l ++ Arg.flushTag :: r) = true :=
            (will_always_iff _).mpr (by simp)
          have hc1 : print_can_possibly_flush (l ++ Arg.flushTag :: r) = true :=
            List.any_eq_true.mpr ⟨Arg.flushTag, by simp, rfl⟩
          have hc2 : print_can_possibly_flush (l ++ Arg.flushVal true :: r) = true :=
            List.any_eq_true.mpr ⟨Arg.flushVal true, hmem, rfl⟩
          rw [hw1, hw2, hc1, hc2, hfl,
            print_impl_swap_opt o.sep l r Arg.flushTag (Arg.flushVal true) rfl rfl false]
          simp [print_flush]
        exact congrArg (fun t => some (o.file, t)) hX


/-- A `print_options` record with its separator slot (value and set-bit)
replaced. -/
def withSep (o : print_options) (v : Val) (b : Bool) : print_options :=
  print_options.mk v o.endv o.file o.flush b o.set_endv o.set_file o.set_flush

/-- A `print_options` record with its terminator slot (value and set-bit)
replaced. -/
def withEndv (o : print_options) (v : Val) (b : Bool) : print_options :=
  print_options.mk o.sep v o.file o.flush o.set_sep b o.set_file o.set_flush

lemma addArg_withSep {a : Arg} (h : bindsSlot Slot.sepS a = false)
    (o : print_options) (v : Val) (b : Bool) :
    addArg (withSep o v b) a
      = Option.map (fun o2 => withSep o2 v b) (addArg o a) := by
  cases a <;> simp [bindsSlot] at h <;> simp [addArg, withSep, apply_ite]

lemma addArg_withEndv {a : Arg} (h : bindsSlot Slot.endvS a = false)
    (o : print_options) (v : Val) (b : Bool) :
    addArg (withEndv o v b) a
      = Option.map (fun o2 => withEndv o2 v b) (addArg o a) := by
  cases a <;> simp [bindsSlot] at h <;> simp [addArg, withEndv, apply_ite]

lemma combine_withSep : ∀ (args : List Arg),
    (∀ a ∈ args, bindsSlot Slot.sepS a = false) →
    ∀ (o : print_options) (v : Val) (b : Bool),
    combine_options (withSep o v b) args
      = Option.map (fun o2 => withSep o2 v b) (combine_options o args) := by
  intro args
  induction args with
  | nil => intro _ o v b; rfl
  | cons a rest ih =>
      intro h o v b
      simp only [combine_options, addArg_withSep (h a (by simp))]
      cases ha : addArg o a with
      | none => rfl
      | some o1 =>
          simp only [Option.map_some']
          exact ih (fun x hx => h x (by simp [hx])) o1 v b

lemma combine_withEndv : ∀ (args : List Arg),
    (∀ a ∈ args, bindsSlot Slot.endvS a = false) →
    ∀ (o : print_options) (v : Val) (b : Bool),
    combine_options (withEndv o v b) args
      = Option.map (fun o2 => withEndv o2 v b) (combine_options o args) := by
  intro args
  induction args with
  | nil => intro _ o v b; rfl
  | cons a rest ih =>
      intro h o v b
      simp only [combine_options, addArg_withEndv (h a (by simp))]
      cases ha : addArg o a with
      | none => rfl
      | some o1 =>
          simp only [Option.map_some']
          exact ih (fun x hx => h x (by simp [hx])) o1 v b

lemma combine_pres {s : Slot} : ∀ (args : List Arg),
    (∀ a ∈ args, bindsSlot s a = false) →
    ∀ (o o2 : print_options), combine_options o args = some o2 →
    slotSet s o2 = slotSet s o := by
  intro args
  induction args with
  | nil =>
      intro _ o o2 h
      simp only [combine_options, Option.some_inj] at h
      subst h
      rfl
  | cons a rest ih =>
      intro h o o2 hc
      simp only [combine_options] at hc
      cases ha : addArg o a with
      | none => simp [ha] at hc
      | some o1 =>
          simp only [ha] at hc
          rw [ih (fun x hx => h x (by simp [hx])) o1 o2 hc]
          exact addArg_pres ha (h a (by simp))

/-- Claim C8 (amended: the appended-binding equivalences hold for argument
lists that do not already bind the option being defaulted; in general the
entry points differ only in the default separator and terminator they hand to
the shared algorithm, which the first two equations state unconditionally). -/
theorem C8_entry_points (fc : Nat) (args : List Arg) :
    raw_print fc args = print_impl_3 fc Val.nothing Val.nothing args
    ∧ print_no_end fc args = print_impl_3 fc (Val.ord 32) Val.nothing args
    ∧ ((∀ a ∈ args, bindsSlot Slot.sepS a = false ∧ bindsSlot Slot.endvS a = false) →
        raw_print fc args
          = print fc (args ++ [Arg.sepVal Val.nothing, Arg.endVal Val.nothing]))
    ∧ ((∀ a ∈ args, bindsSlot Slot.endvS a = false) →
        print_no_end fc args = print fc (args ++ [Arg.endVal Val.nothing])) := by
  refine ⟨rfl, rfl, ?_, ?_⟩
  · intro h
    have hsepf : ∀ a ∈ args, bindsSlot Slot.sepS a = false := fun a ha => (h a ha).1
    have hendf : ∀ a ∈ args, bindsSlot Slot.endvS a = false := fun a ha => (h a ha).2
    have hL : combine_options (default_options Val.nothing Val.nothing) args
        = Option.map (fun o2 => withSep o2 Val.nothing false)
            (Option.map (fun o2 => withEndv o2 Val.nothing false)
              (combine_options (default_options (Val.ord 32) (Val.ord 10)) args)) := by
      have hd : default_options Val.nothing Val.nothing
          = withSep (withEndv (default_options (Val.ord 32) (Val.ord 10))
              Val.nothing false) Val.nothing false := rfl
      rw [hd, combine_withSep args hsepf, combine_withEndv args hendf]
    unfold raw_print print print_impl_3
    rw [hL, combine_options_app]
    cases hm : combine_options (default_options (Val.ord 32) (Val.ord 10)) args with
    | none => rfl
    | some o2 =>
        have hs2 : o2.set_sep = false := by
          have hz := combine_pres args hsepf _ _ hm
          simpa [slotSet, default_options] using hz
        have he2 : o2.set_endv = false := by
          have hz := combine_pres args hendf _ _ hm
          simpa [slotSet, default_options] using hz
        have hR : combine_options o2 [Arg.sepVal Val.nothing, Arg.endVal Val.nothing]
            = some (print_options.mk Val.nothing Val.nothing o2.file o2.flush
                true true o2.set_file o2.set_flush) := by
          simp [combine_options, addArg, hs2, he2]
        rw [Option.map_some', Option.map_some', Option.some_bind, hR]
        have htr : print_impl_2 fc
            (withSep (withEndv o2 Val.nothing false) Val.nothing false) args
            = print_impl_2 fc
                (print_options.mk Val.nothing Val.nothing o2.file o2.flush
                  true true o2.set_file o2.set_flush)
                (args ++ [Arg.sepVal Val.nothing, Arg.endVal Val.nothing]) := by
          unfold print_impl_2
          rw [print_impl_app]
          simp [withSep, withEndv, print_impl, kindOf, print_end_impl,
            print_can_possibly_flush, print_will_always_flush,
            List.any_append, List.any_cons]
        exact congrArg (fun t => some (o2.file, t)) htr
  · intro hendf
    have hL : combine_options (default_options (Val.ord 32) Val.nothing) args
        = Option.map (fun o2 => withEndv o2 Val.nothing false)
            (combine_options (default_options (Val.ord 32) (Val.ord 10)) args) := by
      have hd : default_options (Val.ord 32) Val.nothing
          = withEndv (default_options (Val.ord 32) (Val.ord 10)) Val.nothing false := rfl
      rw [hd, combine_withEndv args hendf]
    unfold print_no_end print print_impl_3
    rw [hL, combine_options_app]
    cases hm : combine_options (default_options (Val.ord 32) (Val.ord 10)) args with
    | none => rfl
    | some o2 =>
        have he2 : o2.set_endv = false := by
          have hz := combine_pres args hendf _ _ hm
          simpa [slotSet, default_options] using hz
        have hR : combine_options o2 [Arg.endVal Val.nothing]
            = some (print_options.mk o2.sep Val.nothing o2.file o2.flush
                o2.set_sep true o2.set_file o2.set_flush) := by
          simp [combine_options, addArg, he2]
        rw [Option.map_some', Option.some_bind, hR]
        have htr : print_impl_2 fc (withEndv o2 Val.nothing false) args
            = print_impl_2 fc
                (print_options.mk o2.sep Val.nothing o2.file o2.flush
                  o2.set_sep true o2.set_file o2.set_flush)
                (args ++ [Arg.endVal Val.nothing]) := by
          unfold print_impl_2
          rw [print_impl_app]
          simp [withEndv, print_impl, kindOf, print_end_impl,
            print_can_possibly_flush, print_will_always_flush,
            List.any_append, List.any_cons]
        exact congrArg (fun t => some (o2.file, t)) htr

/-- Claim C8 counterexample: for an argument list that already binds the
separator, `raw_print` builds and produces output, while the claimed
equivalent `print` call with the appended bindings is a duplicate-binding
compile failure. -/
theorem C8_counterexample :
    raw_print 1 [Arg.sepVal (Val.ord 7)] = some (0, [])
    ∧ print 1 ([Arg.sepVal (Val.ord 7)]
        ++ [Arg.sepVal Val.nothing, Arg.endVal Val.nothing]) = none := by
  decide

theorem C8_witness :
    raw_print 1 [Arg.data 0, Arg.data 1]
      = print 1 ([Arg.data 0, Arg.data 1]
          ++ [Arg.sepVal Val.nothing, Arg.endVal Val.nothing]) :=
  (C8_entry_points 1 [Arg.data 0, Arg.data 1]).2.2.1 (by decide)


/-- The channel's declared write guarantee for one value.  The `operator<<`
for `print_nothing_t` is itself declared `noexcept`, so writing Sentinel is
always non-failing; every other value's guarantee comes from the channel
model `w`. -/
def valWriteNX (w : Val → Bool) : Val → Bool
  | .nothing => true
  | .ord n => w (.ord n)
  | .fileTagV => w .fileTagV

/-- The `noexcept` computed along `print_impl`'s overload chain: option and
Sentinel overloads just chain; a printable argument contributes its own write
guarantee, plus the separator write's guarantee when the overload for the
ready-to-print-separator state is the one instantiated (that overload's
`noexcept` names `opts.file << opts.sep`, which is trivially non-failing when
the separator is `print_nothing_t`). -/
def print_impl_nx (w : Val → Bool) (sep : Val) : Bool → List Arg → Bool
  | _, [] => true
  | ps, a :: rest =>
      match kindOf a with
      | .opt => print_impl_nx w sep ps rest
      | .nul => print_impl_nx w sep false rest
      | .dataK v =>
          (if ps then valWriteNX w sep else true) && w v &&
            print_impl_nx w sep true rest

/-- Source `printer::detail::is_end_noexcept`: the terminator write's guarantee,
`true` when the terminator is `print_nothing_t`. -/
def is_end_noexcept (w : Val → Bool) (e : Val) : Bool := valWriteNX w e

/-- Source `printer::detail::is_flush_noexcept`: the flush strategy's guarantee
`fnx` is consulted only when the call can possibly flush. -/
def is_flush_noexcept (fnx canF : Bool) : Bool := if canF then fnx else true

/-- The `noexcept` of `print_impl_2`, which is the whole call's declared
guarantee (`combine_options` and the entry-point wrappers are themselves
unconditionally `noexcept`). -/
def print_impl_2_nx (w : Val → Bool) (fnx : Bool) (o : print_options)
    (args : List Arg) : Bool :=
  print_impl_nx w o.sep false args && is_end_noexcept w o.endv &&
    is_flush_noexcept fnx (print_can_possibly_flush args)

/-- Modelled from the spec: the formula claim C9 asserts for the call's
guarantee — the unconditional logical AND of the channel write guarantee for
the separator type, for each printable argument's type, for the terminator
type, and the flush strategy's guarantee.  This follows the claim's words,
for comparison against the source-derived `print_impl_2_nx`. -/
def spec_claimed_nx (w : Val → Bool) (fnx : Bool) (o : print_options)
    (args : List Arg) : Bool :=
  valWriteNX w o.sep &&
    (args.all fun a => match kindOf a with | .dataK v => w v | _ => true) &&
    valWriteNX w o.endv && fnx

/-- Whether the overload chain ever reaches a printable argument in the
ready-to-print-separator state, i.e. whether a separator-write position is
reachable and its guarantee enters the computed `noexcept`. -/
def sep_consulted : Bool → List Arg → Bool
  | _, [] => false
  | ps, a :: rest =>
      match kindOf a with
      | .opt => sep_consulted ps rest
      | .nul => sep_consulted false rest
      | .dataK _ => ps || sep_consulted true rest

lemma print_impl_nx_eq (w : Val → Bool) (sep : Val) : ∀ (ps : Bool) (args : List Arg),
    print_impl_nx w sep ps args
      = ((if sep_consulted ps args then valWriteNX w sep else true) &&
          (args.all fun a => match kindOf a with | .dataK v => w v | _ => true)) := by
  intro ps args
  induction args generalizing ps with
  | nil => simp [print_impl_nx, sep_consulted]
  | cons a rest ih =>
      cases hk : kindOf a with
      | opt =>
          simp only [print_impl_nx, sep_consulted, List.all_cons, hk, Bool.true_and]
          exact ih ps
      | nul =>
          simp only [print_impl_nx, sep_consulted, List.all_cons, hk, Bool.true_and]
          exact ih false
      | dataK v =>
          simp only [print_impl_nx, sep_consulted, List.all_cons, hk]
          rw [ih true]
          cases ps <;> cases hsc : sep_consulted true rest <;>
            simp [Bool.and_assoc, Bool.and_left_comm, Bool.and_comm, Bool.and_self]

/-- Claim C9 (amended): the call's computed no-throw guarantee equals the AND
of each printable argument's write guarantee, the separator's write guarantee
exactly when some printable argument is visited with a separator pending, the
terminator's write guarantee (trivially non-failing for Sentinel), and the
flush strategy's guarantee exactly when a flush argument is present; in
particular, if the claim's unconditional AND of all components is non-failing
then the whole call is declared non-failing. -/
theorem C9_noexcept (w : Val → Bool) (fnx : Bool) (o : print_options)
    (args : List Arg) :
    (print_impl_2_nx w fnx o args
      = ((if sep_consulted false args then valWriteNX w o.sep else true) &&
          (args.all fun a => match kindOf a with | .dataK v => w v | _ => true) &&
          valWriteNX w o.endv &&
          (if print_can_possibly_flush args then fnx else true)))
    ∧ (spec_claimed_nx w fnx o args = true → print_impl_2_nx w fnx o args = true) := by
  constructor
  · unfold print_impl_2_nx is_end_noexcept is_flush_noexcept
    rw [print_impl_nx_eq]
  · intro hs
    unfold spec_claimed_nx at hs
    simp only [Bool.and_eq_true] at hs
    obtain ⟨⟨⟨hsep, hall⟩, hendv⟩, hf⟩ := hs
    unfold print_impl_2_nx is_end_noexcept is_flush_noexcept
    rw [print_impl_nx_eq]
    simp [hsep, hall, hendv, hf]

/-- Claim C9 counterexample, via two concrete calls.  First: one printable
argument and the separator bound to a value whose channel write is
potentially-throwing — the computed call guarantee is non-failing (no
separator-write position is ever instantiated) while the claim's
unconditional AND is failing.  Second: no flush argument and a
potentially-throwing flush strategy — computed guarantee non-failing, the
claim's AND failing. -/
theorem C9_counterexample :
    combine_options (default_options (Val.ord 32) (Val.ord 10))
        [Arg.sepVal (Val.ord 99), Arg.data 0]
      = some (print_options.mk (Val.ord 99) (Val.ord 10) 0 false true false false false)
    ∧ print_impl_2_nx (fun v => decide (v ≠ Val.ord 99)) true
        (print_options.mk (Val.ord 99) (Val.ord 10) 0 false true false false false)
        [Arg.sepVal (Val.ord 99), Arg.data 0] = true
    ∧ spec_claimed_nx (fun v => decide (v ≠ Val.ord 99)) true
        (print_options.mk (Val.ord 99) (Val.ord 10) 0 false true false false false)
        [Arg.sepVal (Val.ord 99), Arg.data 0] = false
    ∧ print_impl_2_nx (fun _ => true) false
        (default_options (Val.ord 32) (Val.ord 10)) [Arg.data 0] = true
    ∧ spec_claimed_nx (fun _ => true) false
        (default_options (Val.ord 32) (Val.ord 10)) [Arg.data 0] = false := by
  decide

theorem C9_witness :
    spec_claimed_nx (fun v => decide (v ≠ Val.ord 99)) true
        (print_options.mk (Val.ord 32) (Val.ord 10) 0 false false false false false)
        [Arg.data 0] = true
    ∧ print_impl_2_nx (fun v => decide (v ≠ Val.ord 99)) true
        (print_options.mk (Val.ord 32) (Val.ord 10) 0 false false false false false)
        [Arg.data 0] = true :=
  ⟨by decide,
    (C9_noexcept (fun v => decide (v ≠ Val.ord 99)) true
      (print_options.mk (Val.ord 32) (Val.ord 10) 0 false false false false false)
      [Arg.data 0]).2 (by decide)⟩

end printer
